import Mathlib

/-
  Shallow embedding of vigorstats.py, a telnet scraper that logs into a
  Draytek Vigor modem, issues the commands "vdsl status" and
  "vdsl status more", and converts the two response blobs into a flat
  key/value record.  Python strings are modelled as List Char (ASCII
  fragment), the telnet reader as a list of chunks returned by successive
  read calls (an exhausted list yields the empty string, as a closed
  telnetlib3 stream does), and a raised exception as the value none.
-/

namespace VigorStats

/-- The case mapping of Python str.lower on the ASCII fragment. -/
def lowerTable : List (Char × Char) :=
  [('A', 'a'), ('B', 'b'), ('C', 'c'), ('D', 'd'), ('E', 'e'), ('F', 'f'),
   ('G', 'g'), ('H', 'h'), ('I', 'i'), ('J', 'j'), ('K', 'k'), ('L', 'l'),
   ('M', 'm'), ('N', 'n'), ('O', 'o'), ('P', 'p'), ('Q', 'q'), ('R', 'r'),
   ('S', 's'), ('T', 't'), ('U', 'u'), ('V', 'v'), ('W', 'w'), ('X', 'x'),
   ('Y', 'y'), ('Z', 'z')]

/-- Python str.lower on one ASCII character. -/
def pyToLower (c : Char) : Char :=
  match lowerTable.find? (fun p => p.1 == c) with
  | some p => p.2
  | none => c

/-- Python regex class backslash-s (ASCII fragment). -/
def pyIsSpace (c : Char) : Bool :=
  c = ' ' || c = '\t' || c = '\n' || c = '\x0d' || c = '\x0b' || c = '\x0c'

/-- Python regex class backslash-d (ASCII fragment). -/
def pyIsDigit (c : Char) : Bool :=
  '0' ≤ c && c ≤ '9'

/-- Python regex class backslash-w (ASCII fragment). -/
def pyIsWord (c : Char) : Bool :=
  pyIsDigit c || ('a' ≤ c && c ≤ 'z') || ('A' ≤ c && c ≤ 'Z') || c = '_'

/-- Python s.replace("  ", " "): one left-to-right pass replacing each
non-overlapping occurrence of two consecutive spaces by a single space. -/
def replaceDoubleSpace : List Char → List Char
  | [] => []
  | [c] => [c]
  | c1 :: c2 :: rest =>
    if c1 = ' ' ∧ c2 = ' ' then ' ' :: replaceDoubleSpace rest
    else c1 :: replaceDoubleSpace (c2 :: rest)

/-- Python s.replace(" ", "_"): replace every space by an underscore. -/
def spacesToUnderscores (s : List Char) : List Char :=
  s.map fun c => if c = ' ' then '_' else c

/-- Key built from a label, vigorstats.py lines 115 and 146:
label.lower().replace("  ", " ").replace(" ", "_"). -/
def normalizeLabel (s : List Char) : List Char :=
  spacesToUnderscores (replaceDoubleSpace (s.map pyToLower))

/-- Key built from a description, vigorstats.py line 149:
desc.lower().replace(" ", "_"). -/
def normalizeDesc (s : List Char) : List Char :=
  spacesToUnderscores (s.map pyToLower)

/-- Python substring test: pat in s. -/
def containsSub (s pat : List Char) : Bool :=
  pat.isPrefixOf s ||
    match s with
    | [] => false
    | _ :: rest => containsSub rest pat

/-- Python data.endswith(text). -/
def pyEndsWith (data text : List Char) : Bool :=
  text.isSuffixOf data

/- ----------------------------------------------------------------
   The regex fragment used by the two extraction loops.  Every pattern
   is a literal label followed by alternating character-class plus
   repetitions and literals whose first characters lie in disjoint
   classes, so greedy maximal-munch matching coincides with Python
   backtracking semantics for these patterns.
  ---------------------------------------------------------------- -/

/-- Match a literal string at the head, returning the remainder. -/
def litMatch : List Char → List Char → Option (List Char)
  | [], s => some s
  | _ :: _, [] => none
  | p :: ps, c :: cs => if c = p then litMatch ps cs else none

/-- Match one-or-more characters of a class at the head (greedy),
returning the captured run and the remainder. -/
def plusMatch (p : Char → Bool) (s : List Char) : Option (List Char × List Char) :=
  match s.takeWhile p with
  | [] => none
  | t => some (t, s.dropWhile p)

/-- Match the paired-statistics pattern label backslash-s+ : backslash-s+
(backslash-d+) backslash-s+ (backslash-d+) at the head of s, vigorstats.py
line 151, returning the two captured digit groups. -/
def matchMoreAt (label : List Char) (s : List Char) : Option (List Char × List Char) :=
  (litMatch label s).bind fun s1 =>
  (plusMatch pyIsSpace s1).bind fun t2 =>
  (litMatch [':'] t2.2).bind fun s3 =>
  (plusMatch pyIsSpace s3).bind fun t4 =>
  (plusMatch pyIsDigit t4.2).bind fun t5 =>
  (plusMatch pyIsSpace t5.2).bind fun t6 =>
  (plusMatch pyIsDigit t6.2).map fun t7 => (t5.1, t7.1)

/-- re.search of the paired-statistics pattern: leftmost match. -/
def searchMore (label : List Char) : List Char → Option (List Char × List Char)
  | [] => matchMoreAt label []
  | c :: rest => (matchMoreAt label (c :: rest)).orElse fun _ => searchMore label rest

/-- Match the simple-statistics pattern at the head of s, vigorstats.py
lines 121-125: label backslash-s+ : backslash-s+ (backslash-w+) followed by
a single backslash-s when no unit is declared, or by backslash-s+ unit when
one is.  Returns the captured group. -/
def matchBasicAt (label : List Char) (unit : Option (List Char)) (s : List Char) :
    Option (List Char) :=
  (litMatch label s).bind fun s1 =>
  (plusMatch pyIsSpace s1).bind fun t2 =>
  (litMatch [':'] t2.2).bind fun s3 =>
  (plusMatch pyIsSpace s3).bind fun t4 =>
  (plusMatch pyIsWord t4.2).bind fun t5 =>
  match unit with
  | none =>
    match t5.2 with
    | [] => none
    | c :: _ => if pyIsSpace c then some t5.1 else none
  | some u =>
    (plusMatch pyIsSpace t5.2).bind fun t6 =>
    (litMatch u t6.2).map fun _ => t5.1

/-- re.search of the simple-statistics pattern: leftmost match. -/
def searchBasic (label : List Char) (unit : Option (List Char)) :
    List Char → Option (List Char)
  | [] => matchBasicAt label unit []
  | c :: rest => (matchBasicAt label unit (c :: rest)).orElse fun _ => searchBasic label unit rest

/- ----------------------------------------------------------------
   Values, coercions and the output dictionary.
  ---------------------------------------------------------------- -/

/-- A scalar stored in the output record. -/
inductive PyValue
  | str (s : List Char)
  | int (n : Int)
  | bool (b : Bool)
deriving DecidableEq

/-- The coerce entry of a field table row: the Python builtin int or bool. -/
inductive Coercion
  | int
  | bool
deriving DecidableEq

/-- Base-10 value of a digit string. -/
def digitsToNat (ds : List Char) : Nat :=
  ds.foldl (fun n c => 10 * n + (c.toNat - 48)) 0

/-- Python str.strip() (ASCII whitespace). -/
def pyStrip (s : List Char) : List Char :=
  ((s.dropWhile pyIsSpace).reverse.dropWhile pyIsSpace).reverse

/-- Value of a stripped literal: an optional sign followed by one-or-more
digits; anything else raises ValueError, modelled as none. -/
def pyIntCore : List Char → Option Int
  | [] => none
  | c :: ds =>
    if c = '+' then
      if !ds.isEmpty && ds.all pyIsDigit then some (digitsToNat ds : Int) else none
    else if c = '-' then
      if !ds.isEmpty && ds.all pyIsDigit then some (-(digitsToNat ds : Int)) else none
    else if (c :: ds).all pyIsDigit then some (digitsToNat (c :: ds) : Int) else none

/-- Python int(s): strip whitespace, then parse the signed literal. -/
def pyInt (s : List Char) : Option Int :=
  pyIntCore (pyStrip s)

/-- Python bool(s): the empty string is falsy, every other string truthy. -/
def pyBool (s : List Char) : Bool :=
  !s.isEmpty

/-- Apply the coerce entry of a row to a captured token; none models a
raised ValueError. -/
def applyCoerce : Option Coercion → List Char → Option PyValue
  | none, s => some (.str s)
  | some .int, s => (pyInt s).map PyValue.int
  | some .bool, s => some (.bool (pyBool s))

/-- The output dict, an insertion-ordered association list. -/
abbrev Dict := List (List Char × PyValue)

/-- Keys of the dict in insertion order. -/
def dictKeys (d : Dict) : List (List Char) :=
  d.map Prod.fst

/-- Python dict assignment output[k] = v. -/
def dictSet (d : Dict) (k : List Char) (v : PyValue) : Dict :=
  if k ∈ dictKeys d then d.map (fun p => if p.1 = k then (k, v) else p)
  else d ++ [(k, v)]

/-- Python dict lookup. -/
def dictGet (d : Dict) (k : List Char) : Option PyValue :=
  match d with
  | [] => none
  | (k1, v) :: rest => if k1 = k then some v else dictGet rest k

/- ----------------------------------------------------------------
   The two schema tables, vigorstats.py lines 11-58.
  ---------------------------------------------------------------- -/

/-- One row of VIGOR_130_VALUES or VIGOR_130_MORE_VALUES. -/
structure FieldSpec where
  label : List Char
  unit : Option (List Char) := none
  desc : Option (List Char) := none
  coerce : Option Coercion := none
deriving DecidableEq

def VIGOR_130_VALUES : List FieldSpec := [
  { label := "Running Mode".data },
  { label := "State".data },
  { label := "Power Management Mode".data },
  { label := "DS Actual Rate".data, unit := some "bps".data, coerce := some .int },
  { label := "DS Attainable Rate".data, unit := some "bps".data, coerce := some .int },
  { label := "DS Interleave Depth".data, coerce := some .int },
  { label := "NE Current Attenuation".data, unit := some "dB".data, coerce := some .int },
  { label := "NE CRC Count".data, coerce := some .int },
  { label := "NE ES Count".data, coerce := some .int },
  { label := "US Actual Rate".data, unit := some "bps".data, coerce := some .int },
  { label := "US Attainable Rate".data, unit := some "bps".data, coerce := some .int },
  { label := "US Interleave Depth".data, coerce := some .int },
  { label := "Cur SNR Margin".data, unit := some "dB".data, coerce := some .int },
  { label := "FE CRC Count".data, coerce := some .int },
  { label := "FE  ES Count".data, coerce := some .int },
  { label := "Far Current Attenuation".data, unit := some "dB".data, coerce := some .int },
  { label := "Far SNR Margin".data, unit := some "dB".data, coerce := some .int },
  { label := "Xdsl Reset Times".data, coerce := some .int },
  { label := "Xdsl Link  Times".data, coerce := some .int }
]

def VIGOR_130_MORE_VALUES : List FieldSpec := [
  { label := "Trellis".data, coerce := some .bool },
  { label := "Bitswap".data, coerce := some .bool },
  { label := "ReTxEnable".data, coerce := some .bool },
  { label := "VirtualNoise".data, coerce := some .bool },
  { label := "LOS".data, desc := some "Loss Of Signal Count".data, coerce := some .int },
  { label := "LOF".data, desc := some "Loss Of Frame Count".data, coerce := some .int },
  { label := "LPR".data, desc := some "Loss Of Power Count".data, coerce := some .int },
  { label := "LOM".data, desc := some "Loss Of Margin Count".data, coerce := some .int },
  { label := "SosSuccess".data, desc := some "Successful SOS Procedure Count".data, coerce := some .int },
  { label := "NCD".data, desc := some "No Cell Delineation Failure Count".data, coerce := some .int },
  { label := "LCD".data, desc := some "Loss Of Cell Delineation Failure Count".data, coerce := some .int },
  { label := "FECS".data, desc := some "Forward Error Correction Seconds".data, coerce := some .int },
  { label := "ES".data, desc := some "Errored Seconds".data, coerce := some .int },
  { label := "SES".data, desc := some "Severely Errored Seconds".data, coerce := some .int },
  { label := "LOSS".data, desc := some "Loss Of Signal Seconds".data, coerce := some .int },
  { label := "UAS".data, desc := some "Unavailable Seconds".data, coerce := some .int },
  { label := "HECError".data, desc := some "Header Error Check Error Count".data, coerce := some .int },
  { label := "CRC".data, desc := some "CRC Error Count".data, coerce := some .int },
  { label := "INP".data, desc := some "Impulse Noise Protection".data, coerce := some .int },
  { label := "InterleaveDelay".data, desc := some "Interleave Delay".data, coerce := some .int },
  { label := "NFEC".data, coerce := some .int },
  { label := "RFEC".data, coerce := some .int },
  { label := "LSYMB".data, coerce := some .int },
  { label := "INTLVBLOCK".data, coerce := some .int }
]

/- ----------------------------------------------------------------
   The extraction loops, vigorstats.py lines 108-169.
  ---------------------------------------------------------------- -/

/-- Suffix appended for the near-end value of a paired field. -/
def nearSuffix : List Char := ['_', 'n', 'e', 'a', 'r']

/-- Suffix appended for the far-end value of a paired field. -/
def farSuffix : List Char := ['_', 'f', 'a', 'r']

/-- Key of a paired field: built from the description when present,
otherwise from the label, vigorstats.py lines 146-149. -/
def moreKey (v : FieldSpec) : List Char :=
  match v.desc with
  | some d => normalizeDesc d
  | none => normalizeLabel v.label

/-- One iteration of the simple-statistics loop, vigorstats.py lines
112-138.  Returns none when the coercion raises ValueError, which aborts
the whole function. -/
def basicStep (data : List Char) (out : Dict) (v : FieldSpec) : Option Dict :=
  let key := normalizeLabel v.label
  if containsSub data v.label then
    match searchBasic v.label v.unit data with
    | none => some out
    | some g => (applyCoerce v.coerce g).map fun conv => dictSet out key conv
  else
    some out

/-- One iteration of the paired-statistics loop, vigorstats.py lines
145-167. -/
def moreStep (more_data : List Char) (out : Dict) (v : FieldSpec) : Option Dict :=
  let key := moreKey v
  match searchMore v.label more_data with
  | none => some out
  | some g =>
    (applyCoerce v.coerce g.1).bind fun near_end =>
    (applyCoerce v.coerce g.2).map fun far_end =>
      dictSet (dictSet out (key ++ nearSuffix) near_end) (key ++ farSuffix) far_end

/-- The two extraction passes over the captured blobs, vigorstats.py
lines 108-167.  none models an uncaught ValueError from a coercion. -/
def extractAll (data more_data : List Char) : Option Dict :=
  (VIGOR_130_VALUES.foldlM (basicStep data) []).bind fun d1 =>
  VIGOR_130_MORE_VALUES.foldlM (moreStep more_data) d1

/- ----------------------------------------------------------------
   The session side, vigorstats.py lines 61-103 and 172-207.
  ---------------------------------------------------------------- -/

/-- One reader.read call: the next chunk of the stream, or the empty
string once the stream is exhausted. -/
def readChunk : List (List Char) → List Char × List (List Char)
  | [] => ([], [])
  | c :: rest => (c, rest)

/-- vigorstats.py lines 61-75: read up to retries chunks, returning the
first chunk that itself ends with the marker text together with the rest
of the stream; when the count runs out the function raises a bare
Exception, modelled as none.  Each read replaces the previous data. -/
def read_until (chunks : List (List Char)) (text : List Char) :
    (retries : Nat := 5) → Option (List Char × List (List Char))
  | 0 => none
  | retries + 1 =>
    let r := readChunk chunks
    if pyEndsWith r.1 text then some r
    else read_until r.2 text retries

/-- The handshake and capture phase of get_vigor_stats, vigorstats.py
lines 81-103: wait for the three markers, then read the two response
blobs.  none models the raised-and-logged exception path, after which
the local variable data is still None. -/
def handshake (chunks : List (List Char)) : Option (List Char × List Char) :=
  (read_until chunks "Account:".data).bind fun s1 =>
  (read_until s1.2 "Password: ".data).bind fun s2 =>
  (read_until s2.2 "> ".data).bind fun s3 =>
  let r1 := readChunk s3.2
  let r2 := readChunk r1.2
  some (r1.1, r2.1)

/-- Outcome of one call of the get_vigor_stats shell callback. -/
inductive RunResult
  /-- The record was extracted and printed as JSON. -/
  | record (rec : Dict)
  /-- The handshake failed, the exception was logged and swallowed, and
  the parsing phase then crashed with TypeError at len(data) because
  data was still None: no record is printed. -/
  | lenNoneTypeError
  /-- A coercion raised ValueError inside an extraction loop: no record
  is printed. -/
  | coerceValueError
deriving DecidableEq

/-- vigorstats.py lines 78-169 end to end: the handshake feeds the two
blobs to the extraction loops; a handshake failure is logged and control
still falls through into the parsing phase, which crashes on the None
blob. -/
def get_vigor_stats (chunks : List (List Char)) : RunResult :=
  match handshake chunks with
  | none => .lenNoneTypeError
  | some blobs =>
    match extractAll blobs.1 blobs.2 with
    | none => .coerceValueError
    | some rec => .record rec

/-- How the connection attempt in main turns out. -/
inductive ConnectOutcome
  /-- The telnet connection was established and the shell callback ran
  against this chunk stream. -/
  | connected (chunks : List (List Char))
  /-- ConnectionRefusedError was raised by open_connection. -/
  | refused
  /-- The user interrupted with control-C. -/
  | interrupted
deriving DecidableEq

/-- vigorstats.py lines 199-207: both except branches only log and fall
off the end of main, so every path exits with status 0; the run result
is surfaced only when the connection succeeded. -/
def main : ConnectOutcome → Option RunResult × Nat
  | .connected chunks => (some (get_vigor_stats chunks), 0)
  | .refused => (none, 0)
  | .interrupted => (none, 0)

/- ----------------------------------------------------------------
   A second normalizer written from the specification text, for
   comparison with the one the code implements: lowercase, collapse any
   run of two-or-more spaces to a single space, replace spaces with
   underscores.
  ---------------------------------------------------------------- -/

/-- Collapse every run of consecutive spaces to a single space; the
Boolean flag records whether the previous character was a space. -/
def collapseRunsAux : Bool → List Char → List Char
  | _, [] => []
  | prevSpace, c :: rest =>
    if c = ' ' then
      if prevSpace then collapseRunsAux true rest
      else ' ' :: collapseRunsAux true rest
    else c :: collapseRunsAux false rest

/-- Collapse every run of two-or-more spaces to a single space. -/
def collapseRuns (s : List Char) : List Char :=
  collapseRunsAux false s

/-- The key normalizer exactly as the specification words it: lowercase,
collapse any run of two-or-more spaces to a single space, replace the
remaining spaces with underscores. -/
def specNormalize (s : List Char) : List Char :=
  spacesToUnderscores (collapseRuns (s.map pyToLower))

/- ----------------------------------------------------------------
   Concrete fixtures used by closed theorems and witnesses.
  ---------------------------------------------------------------- -/

/-- An extended blob containing the FECS sample line from the device. -/
def fecsMore : List Char :=
  "Far-end/Near-end paths\r\nFECS         :   345097            633047 (seconds)\r\nES           :      978              2407 (seconds)\r\n".data

/-- An extended blob whose Trellis line carries the numeric tokens 1 and
0 in the two value columns. -/
def trellisMore : List Char :=
  "Trellis      :      1          0".data

/-- The record extracted from trellisMore. -/
def trellisRec : Dict :=
  [("trellis_near".data, PyValue.bool true), ("trellis_far".data, PyValue.bool true)]

/-- The Trellis row of the extended schema table. -/
def trellisSpec : FieldSpec :=
  { label := "Trellis".data, coerce := some .bool }

/-- A chunk stream that walks the whole handshake and then returns empty
responses to both status commands. -/
def promptOnlyChunks : List (List Char) :=
  ["Account:".data, "Password: ".data, "> ".data]

/- ----------------------------------------------------------------
   Lemmas: generic Option folds.
  ---------------------------------------------------------------- -/

theorem foldlM_isSome {α β : Type} (f : α → β → Option α)
    (hf : ∀ d v, (f d v).isSome) :
    ∀ (l : List β) (d : α), (l.foldlM f d).isSome := by
  intro l
  induction l with
  | nil => intro d; simp [List.foldlM_nil, Option.isSome]
  | cons x xs ih =>
    intro d
    rw [List.foldlM_cons]
    cases hx : f d x with
    | none =>
      have hs := hf d x
      rw [hx] at hs
      simp at hs
    | some dm => simpa [hx] using ih dm

theorem foldlM_preserve {α β : Type} (f : α → β → Option α) (P : α → Prop)
    (hf : ∀ d v d', P d → f d v = some d' → P d') :
    ∀ (l : List β) (d d' : α), P d → l.foldlM f d = some d' → P d' := by
  intro l
  induction l with
  | nil =>
    intro d d' hP h
    simp only [List.foldlM_nil] at h
    cases h
    exact hP
  | cons x xs ih =>
    intro d d' hP h
    rw [List.foldlM_cons] at h
    cases hx : f d x with
    | none => rw [hx] at h; simp at h
    | some dm =>
      rw [hx] at h
      simp only [Option.bind_eq_bind, Option.some_bind] at h
      exact ih dm d' (hf d x dm hP hx) h

/- ----------------------------------------------------------------
   Lemmas: the pattern matchers capture non-empty class-homogeneous
   groups.
  ---------------------------------------------------------------- -/

theorem plusMatch_some {p : Char → Bool} {s : List Char} {t : List Char × List Char}
    (h : plusMatch p s = some t) : t.1 ≠ [] ∧ ∀ c ∈ t.1, p c = true := by
  unfold plusMatch at h
  cases htw : s.takeWhile p with
  | nil => rw [htw] at h; cases h
  | cons a as =>
    rw [htw] at h
    cases h
    refine ⟨by simp, ?_⟩
    intro c hc
    exact List.mem_takeWhile_imp (htw ▸ hc)

theorem matchMoreAt_some {label s : List Char} {g : List Char × List Char}
    (h : matchMoreAt label s = some g) :
    (g.1 ≠ [] ∧ ∀ c ∈ g.1, pyIsDigit c = true) ∧
      (g.2 ≠ [] ∧ ∀ c ∈ g.2, pyIsDigit c = true) := by
  unfold matchMoreAt at h
  simp only [Option.bind_eq_some, Option.map_eq_some'] at h
  obtain ⟨s1, -, t2, -, s3, -, t4, -, t5, h5, t6, -, t7, h7, hg⟩ := h
  have h5d := plusMatch_some h5
  have h7d := plusMatch_some h7
  rw [← hg]
  exact ⟨h5d, h7d⟩

theorem searchMore_some {label : List Char} {g : List Char × List Char} :
    ∀ {s : List Char}, searchMore label s = some g →
      (g.1 ≠ [] ∧ ∀ c ∈ g.1, pyIsDigit c = true) ∧
        (g.2 ≠ [] ∧ ∀ c ∈ g.2, pyIsDigit c = true) := by
  intro s
  induction s with
  | nil => intro h; exact matchMoreAt_some h
  | cons c rest ih =>
    intro h
    unfold searchMore at h
    cases hm : matchMoreAt label (c :: rest) with
    | some g0 =>
      rw [hm] at h
      cases h
      exact matchMoreAt_some hm
    | none =>
      rw [hm] at h
      simp only [Option.orElse] at h
      exact ih h

theorem matchBasicAt_some {label s : List Char} {unit : Option (List Char)}
    {g : List Char} (h : matchBasicAt label unit s = some g) :
    g ≠ [] ∧ ∀ c ∈ g, pyIsWord c = true := by
  cases unit with
  | none =>
    unfold matchBasicAt at h
    simp only [Option.bind_eq_some] at h
    obtain ⟨s1, -, t2, -, s3, -, t4, -, t5, h5, htail⟩ := h
    have h5d := plusMatch_some h5
    cases htl : t5.2 with
    | nil => rw [htl] at htail; cases htail
    | cons a rest2 =>
      rw [htl] at htail
      by_cases hsp : pyIsSpace a = true
      · simp only [hsp, if_true, Option.some.injEq] at htail
        rw [← htail]
        exact h5d
      · simp [hsp] at htail
  | some u =>
    unfold matchBasicAt at h
    simp only [Option.bind_eq_some, Option.map_eq_some'] at h
    obtain ⟨s1, -, t2, -, s3, -, t4, -, t5, h5, t6, -, s7, -, hg⟩ := h
    have h5d := plusMatch_some h5
    rw [← hg]
    exact h5d

theorem searchBasic_some {label : List Char} {unit : Option (List Char)} {g : List Char} :
    ∀ {s : List Char}, searchBasic label unit s = some g →
      g ≠ [] ∧ ∀ c ∈ g, pyIsWord c = true := by
  intro s
  induction s with
  | nil => intro h; exact matchBasicAt_some h
  | cons c rest ih =>
    intro h
    unfold searchBasic at h
    cases hm : matchBasicAt label unit (c :: rest) with
    | some g0 =>
      rw [hm] at h
      cases h
      exact matchBasicAt_some hm
    | none =>
      rw [hm] at h
      simp only [Option.orElse] at h
      exact ih h

/- ----------------------------------------------------------------
   Lemmas: Python int and bool on captured digit groups.
  ---------------------------------------------------------------- -/

theorem digit_not_space {c : Char} (h : pyIsDigit c = true) : pyIsSpace c = false := by
  simp only [pyIsDigit, Bool.and_eq_true, decide_eq_true_eq] at h
  cases hs : pyIsSpace c
  · rfl
  · exfalso
    simp only [pyIsSpace, Bool.or_eq_true, decide_eq_true_eq] at hs
    rcases hs with ((((rfl | rfl) | rfl) | rfl) | rfl) | rfl <;> exact absurd h.1 (by decide)

theorem dropWhile_all_false {p : Char → Bool} {s : List Char}
    (h : ∀ c ∈ s, p c = false) : s.dropWhile p = s := by
  cases s with
  | nil => rfl
  | cons c cs =>
    rw [List.dropWhile_cons]
    simp [h c (List.mem_cons_self c cs)]

theorem pyStrip_of_digits {s : List Char} (h : ∀ c ∈ s, pyIsDigit c = true) :
    pyStrip s = s := by
  unfold pyStrip
  have h1 : s.dropWhile pyIsSpace = s :=
    dropWhile_all_false (fun c hc => digit_not_space (h c hc))
  rw [h1]
  have h2 : s.reverse.dropWhile pyIsSpace = s.reverse :=
    dropWhile_all_false (fun c hc => digit_not_space (h c (List.mem_reverse.mp hc)))
  rw [h2, List.reverse_reverse]

theorem pyInt_isSome_of_digits {s : List Char} (hne : s ≠ [])
    (h : ∀ c ∈ s, pyIsDigit c = true) : (pyInt s).isSome = true := by
  unfold pyInt
  rw [pyStrip_of_digits h]
  cases s with
  | nil => exact absurd rfl hne
  | cons c ds =>
    have hc := h c (List.mem_cons_self c ds)
    have hplus : ¬ c = '+' := by
      rintro rfl; revert hc; decide
    have hminus : ¬ c = '-' := by
      rintro rfl; revert hc; decide
    have hall : (c :: ds).all pyIsDigit = true := List.all_eq_true.mpr h
    simp only [pyIntCore, if_neg hplus, if_neg hminus, if_pos hall]
    rfl

theorem applyCoerce_isSome_of_digits {co : Option Coercion} {g : List Char}
    (hne : g ≠ []) (h : ∀ c ∈ g, pyIsDigit c = true) :
    (applyCoerce co g).isSome = true := by
  match co with
  | none => rfl
  | some .bool => rfl
  | some .int =>
    have hp := pyInt_isSome_of_digits hne h
    simp only [applyCoerce]
    cases hpi : pyInt g with
    | none => rw [hpi] at hp; exact absurd hp (by simp)
    | some n => rfl

theorem applyCoerce_ne_false {co : Option Coercion} {g : List Char} {v : PyValue}
    (hne : g ≠ []) (h : applyCoerce co g = some v) : v ≠ PyValue.bool false := by
  match co with
  | none =>
    cases h
    intro hv
    cases hv
  | some .int =>
    simp only [applyCoerce, Option.map_eq_some'] at h
    obtain ⟨n, -, hv⟩ := h
    rw [← hv]
    intro hv2
    cases hv2
  | some .bool =>
    cases h
    have hb : pyBool g = true := by
      unfold pyBool
      cases g with
      | nil => exact absurd rfl hne
      | cons a as => rfl
    rw [hb]
    intro hv
    cases hv

/- ----------------------------------------------------------------
   Lemmas: the output dictionary.
  ---------------------------------------------------------------- -/

theorem dictKeys_set (d : Dict) (k : List Char) (v : PyValue) :
    dictKeys (dictSet d k v) =
      if k ∈ dictKeys d then dictKeys d else dictKeys d ++ [k] := by
  unfold dictSet
  by_cases hk : k ∈ dictKeys d
  · rw [if_pos hk, if_pos hk]
    unfold dictKeys
    rw [List.map_map]
    apply List.map_congr_left
    intro p hp
    by_cases hpk : p.1 = k
    · simp [Function.comp, hpk]
    · simp [Function.comp, hpk]
  · rw [if_neg hk, if_neg hk]
    unfold dictKeys
    rw [List.map_append]
    rfl

theorem mem_dictKeys_set {d : Dict} {k j : List Char} {v : PyValue} :
    j ∈ dictKeys (dictSet d k v) ↔ j = k ∨ j ∈ dictKeys d := by
  rw [dictKeys_set]
  by_cases hk : k ∈ dictKeys d
  · rw [if_pos hk]
    constructor
    · exact Or.inr
    · rintro (rfl | hj)
      · exact hk
      · exact hj
  · rw [if_neg hk, List.mem_append, List.mem_singleton]
    tauto

theorem mem_dictSet {d : Dict} {k : List Char} {v : PyValue} {p : List Char × PyValue}
    (hp : p ∈ dictSet d k v) : p.2 = v ∨ p ∈ d := by
  unfold dictSet at hp
  by_cases hk : k ∈ dictKeys d
  · rw [if_pos hk] at hp
    simp only [List.mem_map] at hp
    obtain ⟨q, hq, hqe⟩ := hp
    by_cases hqk : q.1 = k
    · rw [if_pos hqk] at hqe
      left
      rw [← hqe]
    · rw [if_neg hqk] at hqe
      right
      rwa [← hqe]
  · rw [if_neg hk] at hp
    rcases List.mem_append.mp hp with h | h
    · right; exact h
    · left
      rcases List.mem_singleton.mp h with rfl
      rfl

/- ----------------------------------------------------------------
   Lemmas: the near and far key suffixes never collide.
  ---------------------------------------------------------------- -/

theorem append_near_ne_append_far (a b : List Char) :
    a ++ nearSuffix ≠ b ++ farSuffix := by
  intro h
  have h2 := congrArg List.reverse h
  rw [List.reverse_append, List.reverse_append] at h2
  have e1 : nearSuffix.reverse = ['r', 'a', 'e', 'n', '_'] := rfl
  have e2 : farSuffix.reverse = ['r', 'a', 'f', '_'] := rfl
  rw [e1, e2] at h2
  injection h2 with c1 h2
  injection h2 with c2 h2
  injection h2 with c3 h2
  exact absurd c3 (by decide)

theorem append_near_inj {a b : List Char} (h : a ++ nearSuffix = b ++ nearSuffix) :
    a = b :=
  List.append_cancel_right h

theorem append_far_inj {a b : List Char} (h : a ++ farSuffix = b ++ farSuffix) :
    a = b :=
  List.append_cancel_right h

/- ----------------------------------------------------------------
   Lemmas: shape of one loop iteration.
  ---------------------------------------------------------------- -/

theorem moreStep_cases {more_data : List Char} {out out' : Dict} {v : FieldSpec}
    (h : moreStep more_data out v = some out') :
    out' = out ∨
      ∃ g : List Char × List Char, ∃ ne fa : PyValue,
        searchMore v.label more_data = some g ∧
        applyCoerce v.coerce g.1 = some ne ∧
        applyCoerce v.coerce g.2 = some fa ∧
        out' = dictSet (dictSet out (moreKey v ++ nearSuffix) ne)
          (moreKey v ++ farSuffix) fa := by
  unfold moreStep at h
  cases hs : searchMore v.label more_data with
  | none =>
    rw [hs] at h
    cases h
    exact Or.inl rfl
  | some g =>
    rw [hs] at h
    simp only [Option.bind_eq_some, Option.map_eq_some'] at h
    obtain ⟨ne, hne, fa, hfa, hout⟩ := h
    exact Or.inr ⟨g, ne, fa, rfl, hne, hfa, hout.symm⟩

theorem basicStep_cases {data : List Char} {out out' : Dict} {v : FieldSpec}
    (h : basicStep data out v = some out') :
    out' = out ∨
      ∃ g : List Char, ∃ conv : PyValue,
        searchBasic v.label v.unit data = some g ∧
        applyCoerce v.coerce g = some conv ∧
        out' = dictSet out (normalizeLabel v.label) conv := by
  unfold basicStep at h
  by_cases hc : containsSub data v.label = true
  · rw [if_pos hc] at h
    cases hs : searchBasic v.label v.unit data with
    | none =>
      rw [hs] at h
      cases h
      exact Or.inl rfl
    | some g =>
      rw [hs] at h
      simp only [Option.map_eq_some'] at h
      obtain ⟨conv, hconv, hout⟩ := h
      exact Or.inr ⟨g, conv, rfl, hconv, hout.symm⟩
  · rw [if_neg hc] at h
    cases h
    exact Or.inl rfl

theorem moreStep_preserves_paired {more_data : List Char} {out out' : Dict}
    {v : FieldSpec} (k : List Char) (h : moreStep more_data out v = some out')
    (hp : (k ++ nearSuffix) ∈ dictKeys out ↔ (k ++ farSuffix) ∈ dictKeys out) :
    (k ++ nearSuffix) ∈ dictKeys out' ↔ (k ++ farSuffix) ∈ dictKeys out' := by
  rcases moreStep_cases h with rfl | ⟨g, ne, fa, -, -, -, rfl⟩
  · exact hp
  · rw [mem_dictKeys_set, mem_dictKeys_set, mem_dictKeys_set, mem_dictKeys_set]
    have e1 : (k ++ nearSuffix = moreKey v ++ farSuffix) ↔ False :=
      iff_false_intro (append_near_ne_append_far k (moreKey v))
    have e2 : (k ++ nearSuffix = moreKey v ++ nearSuffix) ↔ k = moreKey v :=
      ⟨append_near_inj, fun h2 => by rw [h2]⟩
    have e3 : (k ++ farSuffix = moreKey v ++ farSuffix) ↔ k = moreKey v :=
      ⟨append_far_inj, fun h2 => by rw [h2]⟩
    have e4 : (k ++ farSuffix = moreKey v ++ nearSuffix) ↔ False :=
      iff_false_intro fun h2 => append_near_ne_append_far (moreKey v) k h2.symm
    rw [e1, e2, e3, e4]
    simp only [false_or]
    exact or_congr Iff.rfl hp

theorem basicStep_keys {data : List Char} {out out' : Dict} {v : FieldSpec}
    (h : basicStep data out v = some out') :
    ∀ j ∈ dictKeys out', j = normalizeLabel v.label ∨ j ∈ dictKeys out := by
  rcases basicStep_cases h with rfl | ⟨g, conv, -, -, rfl⟩
  · exact fun j hj => Or.inr hj
  · exact fun j hj => mem_dictKeys_set.mp hj

theorem basic_fold_keys {data : List Char} :
    ∀ (l : List FieldSpec) (d d' : Dict),
      l.foldlM (basicStep data) d = some d' →
      ∀ j ∈ dictKeys d', j ∈ l.map (fun w => normalizeLabel w.label) ∨ j ∈ dictKeys d := by
  intro l
  induction l with
  | nil =>
    intro d d' h j hj
    simp only [List.foldlM_nil] at h
    cases h
    exact Or.inr hj
  | cons x xs ih =>
    intro d d' h j hj
    rw [List.foldlM_cons] at h
    cases hx : basicStep data d x with
    | none => rw [hx] at h; simp at h
    | some dm =>
      rw [hx] at h
      simp only [Option.bind_eq_bind, Option.some_bind] at h
      rcases ih dm d' h j hj with hmem | hdm
      · exact Or.inl (by rw [List.map_cons]; exact List.mem_cons_of_mem _ hmem)
      · rcases basicStep_keys hx j hdm with he | hd
        · exact Or.inl (by rw [List.map_cons, he]; exact List.mem_cons_self _ _)
        · exact Or.inr hd

set_option maxHeartbeats 1000000 in
theorem more_keys_not_basic :
    ∀ v ∈ VIGOR_130_MORE_VALUES,
      (moreKey v ++ nearSuffix) ∉ VIGOR_130_VALUES.map (fun w => normalizeLabel w.label) ∧
      (moreKey v ++ farSuffix) ∉ VIGOR_130_VALUES.map (fun w => normalizeLabel w.label) := by
  decide

/-- C6: for every pair of input blobs and every paired field of the
extended schema, the output record of get_vigor_stats contains both the
near and the far key of that field, or neither of them. -/
theorem paired_fields_both_or_neither
    (data more_data : List Char) (v : FieldSpec) (rec : Dict)
    (hv : v ∈ VIGOR_130_MORE_VALUES)
    (hrec : extractAll data more_data = some rec) :
    ((moreKey v ++ nearSuffix) ∈ dictKeys rec ↔ (moreKey v ++ farSuffix) ∈ dictKeys rec) := by
  unfold extractAll at hrec
  cases h1 : VIGOR_130_VALUES.foldlM (basicStep data) [] with
  | none => rw [h1] at hrec; cases hrec
  | some d1 =>
    rw [h1] at hrec
    simp only [Option.some_bind] at hrec
    have hinit :
        ((moreKey v ++ nearSuffix) ∈ dictKeys d1 ↔ (moreKey v ++ farSuffix) ∈ dictKeys d1) := by
      have hnear : (moreKey v ++ nearSuffix) ∉ dictKeys d1 := by
        intro hmem
        rcases basic_fold_keys _ _ _ h1 _ hmem with hb | hnil
        · exact (more_keys_not_basic v hv).1 hb
        · cases hnil
      have hfar : (moreKey v ++ farSuffix) ∉ dictKeys d1 := by
        intro hmem
        rcases basic_fold_keys _ _ _ h1 _ hmem with hb | hnil
        · exact (more_keys_not_basic v hv).2 hb
        · cases hnil
      exact iff_of_false hnear hfar
    exact foldlM_preserve _
      (fun d => (moreKey v ++ nearSuffix) ∈ dictKeys d ↔ (moreKey v ++ farSuffix) ∈ dictKeys d)
      (fun d w d' hP hstep => moreStep_preserves_paired _ hstep hP)
      _ d1 rec hinit hrec

/-- Witness for C6 at a concrete run: the Trellis pair. -/
theorem paired_fields_both_or_neither_witness :
    ((moreKey trellisSpec ++ nearSuffix) ∈ dictKeys trellisRec ↔
      (moreKey trellisSpec ++ farSuffix) ∈ dictKeys trellisRec) :=
  paired_fields_both_or_neither [] trellisMore trellisSpec trellisRec
    (by decide) (by rfl)

/- ----------------------------------------------------------------
   C9 and C10: values stored by the extraction loops.
  ---------------------------------------------------------------- -/

theorem moreStep_preserves_noFalse {more_data : List Char} {out out' : Dict}
    {v : FieldSpec} (h : moreStep more_data out v = some out')
    (hp : ∀ p ∈ out, p.2 ≠ PyValue.bool false) :
    ∀ p ∈ out', p.2 ≠ PyValue.bool false := by
  rcases moreStep_cases h with rfl | ⟨g, ne, fa, hs, hne, hfa, rfl⟩
  · exact hp
  · have hgs := searchMore_some hs
    intro p hpmem
    rcases mem_dictSet hpmem with hval | hpmem2
    · rw [hval]; exact applyCoerce_ne_false hgs.2.1 hfa
    · rcases mem_dictSet hpmem2 with hval | hpmem3
      · rw [hval]; exact applyCoerce_ne_false hgs.1.1 hne
      · exact hp p hpmem3

theorem basicStep_preserves_noFalse {data : List Char} {out out' : Dict}
    {v : FieldSpec} (h : basicStep data out v = some out')
    (hp : ∀ p ∈ out, p.2 ≠ PyValue.bool false) :
    ∀ p ∈ out', p.2 ≠ PyValue.bool false := by
  rcases basicStep_cases h with rfl | ⟨g, conv, hs, hconv, rfl⟩
  · exact hp
  · have hgs := searchBasic_some hs
    intro p hpmem
    rcases mem_dictSet hpmem with hval | hpmem2
    · rw [hval]; exact applyCoerce_ne_false hgs.1 hconv
    · exact hp p hpmem2

/-- C9: the Boolean coercion maps every non-empty captured token to the
boolean true, and accordingly no run of the extraction ever stores the
value false in the output record, whatever the device answered. -/
theorem boolean_coercion_always_true :
    (∀ g : List Char, g ≠ [] → applyCoerce (some Coercion.bool) g = some (PyValue.bool true)) ∧
    ∀ (data more_data : List Char) (rec : Dict) (p : List Char × PyValue),
      extractAll data more_data = some rec → p ∈ rec → p.2 ≠ PyValue.bool false := by
  constructor
  · intro g hg
    cases g with
    | nil => exact absurd rfl hg
    | cons a as => rfl
  · intro data more_data rec p hrec hp
    unfold extractAll at hrec
    cases h1 : VIGOR_130_VALUES.foldlM (basicStep data) [] with
    | none => rw [h1] at hrec; cases hrec
    | some d1 =>
      rw [h1] at hrec
      simp only [Option.some_bind] at hrec
      have hd1 : ∀ q ∈ d1, q.2 ≠ PyValue.bool false :=
        foldlM_preserve _ (fun d => ∀ q ∈ d, q.2 ≠ PyValue.bool false)
          (fun d w d' hP hstep => basicStep_preserves_noFalse hstep hP)
          _ [] d1 (fun q hq => absurd hq (List.not_mem_nil q)) h1
      exact foldlM_preserve _ (fun d => ∀ q ∈ d, q.2 ≠ PyValue.bool false)
        (fun d w d' hP hstep => moreStep_preserves_noFalse hstep hP)
        _ d1 rec hd1 hrec p hp

/-- Witness for C9 at a concrete run: the Trellis line stores true for
both columns even though the far-end token is the string 0. -/
theorem boolean_coercion_always_true_witness :
    extractAll [] trellisMore = some trellisRec ∧ PyValue.bool true ≠ PyValue.bool false :=
  ⟨by rfl,
    boolean_coercion_always_true.2 [] trellisMore trellisRec
      ("trellis_far".data, PyValue.bool true) (by rfl) (by decide)⟩

theorem moreStep_isSome (more_data : List Char) (out : Dict) (v : FieldSpec) :
    (moreStep more_data out v).isSome = true := by
  cases hs : searchMore v.label more_data with
  | none => simp only [moreStep, hs]; rfl
  | some g =>
    have hgs := searchMore_some hs
    have h1 : (applyCoerce v.coerce g.1).isSome = true :=
      applyCoerce_isSome_of_digits hgs.1.1 hgs.1.2
    have h2 : (applyCoerce v.coerce g.2).isSome = true :=
      applyCoerce_isSome_of_digits hgs.2.1 hgs.2.2
    cases hc1 : applyCoerce v.coerce g.1 with
    | none => rw [hc1] at h1; exact absurd h1 (by simp)
    | some ne =>
      cases hc2 : applyCoerce v.coerce g.2 with
      | none => rw [hc2] at h2; exact absurd h2 (by simp)
      | some fa => simp [moreStep, hs, hc1, hc2]

/-- C10: the paired-statistics pattern captures only digit groups, so the
base-10 integer coercion of both captured tokens always succeeds and the
coercion-failure branch of the extended loop is unreachable for every
input blob and every starting record. -/
theorem integer_coercion_never_fails :
    (∀ label more_data g1 g2 : List Char,
        searchMore label more_data = some (g1, g2) →
        (pyInt g1).isSome = true ∧ (pyInt g2).isSome = true) ∧
    ∀ (more_data : List Char) (d : Dict),
      (VIGOR_130_MORE_VALUES.foldlM (moreStep more_data) d).isSome = true := by
  constructor
  · intro label more_data g1 g2 hs
    have hgs := searchMore_some hs
    exact ⟨pyInt_isSome_of_digits hgs.1.1 hgs.1.2, pyInt_isSome_of_digits hgs.2.1 hgs.2.2⟩
  · intro more_data d
    exact foldlM_isSome _ (fun dd v => moreStep_isSome more_data dd v) _ _

/-- Witness for C10 at the concrete FECS sample line. -/
theorem integer_coercion_never_fails_witness :
    (pyInt "345097".data).isSome = true ∧ (pyInt "633047".data).isSome = true :=
  integer_coercion_never_fails.1 "FECS".data fecsMore "345097".data "633047".data (by rfl)

/- ----------------------------------------------------------------
   C1 to C4: session and process behaviour.
  ---------------------------------------------------------------- -/

/-- C1 (documents a source defect): on a stream that never shows the
Account: prompt the handshake exception is caught and logged, yet control
still falls through into the parsing phase with data = None, where
len(data) raises TypeError; the run does not abort before extraction,
and no record is printed. -/
theorem handshake_failure_reaches_extraction :
    get_vigor_stats ["Welcome".data] = RunResult.lenNoneTypeError :=
  rfl

/-- C2 counterexample: read_until misses a marker split across two read
chunks, and on success it returns only the most recent chunk, with the
bytes of every earlier chunk discarded. -/
theorem read_until_split_marker_missed :
    read_until ["Accou".data, "nt:".data] "Account:".data = none ∧
    read_until ["hello".data, "X> ".data] "> ".data = some ("X> ".data, []) :=
  ⟨rfl, rfl⟩

/-- C2 amended: read_until checks each fixed-size read in isolation
instead of accumulating a buffer: whenever it succeeds, the returned
buffer is the single most recent chunk (or the empty string at end of
stream), and its suffix equals the marker. -/
theorem read_until_returns_single_chunk :
    ∀ (retries : Nat) (chunks : List (List Char)) (text data : List Char)
      (rest : List (List Char)),
      read_until chunks text retries = some (data, rest) →
      pyEndsWith data text = true ∧ (data ∈ chunks ∨ data = []) := by
  intro retries
  induction retries with
  | zero =>
    intro chunks text data rest h
    cases h
  | succ r ih =>
    intro chunks text data rest h
    unfold read_until at h
    cases chunks with
    | nil =>
      simp only [readChunk] at h
      by_cases he : pyEndsWith [] text = true
      · rw [if_pos he] at h
        cases h
        exact ⟨he, Or.inr rfl⟩
      · rw [if_neg he] at h
        rcases ih [] text data rest h with ⟨hE, hm | hm⟩
        · cases hm
        · exact ⟨hE, Or.inr hm⟩
    | cons c cs =>
      simp only [readChunk] at h
      by_cases he : pyEndsWith c text = true
      · rw [if_pos he] at h
        cases h
        exact ⟨he, Or.inl (List.mem_cons_self _ _)⟩
      · rw [if_neg he] at h
        rcases ih cs text data rest h with ⟨hE, hm | hm⟩
        · exact ⟨hE, Or.inl (List.mem_cons_of_mem _ hm)⟩
        · exact ⟨hE, Or.inr hm⟩

/-- Witness for the amended C2 at a concrete successful run. -/
theorem read_until_returns_single_chunk_witness :
    pyEndsWith "X> ".data "> ".data = true ∧
      ("X> ".data ∈ (["hello".data, "X> ".data] : List (List Char)) ∨ "X> ".data = ([] : List Char)) :=
  read_until_returns_single_chunk 5 ["hello".data, "X> ".data] "> ".data "X> ".data [] (by rfl)

/-- C3 (documents a source defect): read_until is bounded by its retry
counter, not by a wall clock: with the default five retries a marker
arriving on the fifth read is found, but the same marker on the sixth
read is never seen and the call ends in the raised bare Exception
(modelled none), not in a returned TimeoutError value. -/
theorem read_until_retry_counter_bound :
    read_until ["a".data, "b".data, "c".data, "d".data, "e".data, "Account:".data]
      "Account:".data = none ∧
    read_until ["a".data, "b".data, "c".data, "d".data, "Account:".data]
      "Account:".data = some ("Account:".data, []) :=
  ⟨rfl, rfl⟩

/-- C4 (documents a source defect): a refused connection is only logged
and main falls off the end, exiting with status 0 and surfacing no error
result, exactly like a successful session that produced an empty
record. -/
theorem refused_connection_exits_like_success :
    main ConnectOutcome.refused = (none, 0) ∧
    main (ConnectOutcome.connected promptOnlyChunks) = (some (RunResult.record []), 0) :=
  ⟨rfl, rfl⟩

/-- C7: an extended blob containing the sample line
FECS         :   345097            633047 (seconds) extracts the integers
345097 and 633047 under the keys normalized from the description Forward
Error Correction Seconds. -/
theorem fecs_line_extraction :
    (extractAll [] fecsMore).map
        (fun r => (dictGet r "forward_error_correction_seconds_near".data,
          dictGet r "forward_error_correction_seconds_far".data)) =
      some (some (PyValue.int 345097), some (PyValue.int 633047)) := by
  rfl

/- ----------------------------------------------------------------
   C5 and C8: the key normalizer.
  ---------------------------------------------------------------- -/

theorem lowerTable_snd_fixed : ∀ p ∈ lowerTable, pyToLower p.2 = p.2 := by
  decide

theorem lowerTable_snd_ne_space : ∀ p ∈ lowerTable, p.2 ≠ ' ' := by
  decide

theorem pyToLower_eq_space {c : Char} : pyToLower c = ' ' ↔ c = ' ' := by
  constructor
  · intro h
    unfold pyToLower at h
    cases hf : lowerTable.find? (fun p => p.1 == c) with
    | none =>
      rw [hf] at h
      exact h
    | some p =>
      rw [hf] at h
      exact absurd h (lowerTable_snd_ne_space p (List.mem_of_find?_eq_some hf))
  · rintro rfl
    rfl

theorem pyToLower_idem (c : Char) : pyToLower (pyToLower c) = pyToLower c := by
  have hc : pyToLower c = c ∨ ∃ p ∈ lowerTable, pyToLower c = p.2 := by
    cases hf : lowerTable.find? (fun p => p.1 == c) with
    | none =>
      left
      unfold pyToLower
      rw [hf]
    | some p =>
      right
      refine ⟨p, List.mem_of_find?_eq_some hf, ?_⟩
      unfold pyToLower
      rw [hf]
  rcases hc with hId | ⟨p, hp, he⟩
  · rw [hId]
    exact hId
  · rw [he]
    exact lowerTable_snd_fixed p hp

theorem space_beq_pyToLower (x : Char) : (' ' == pyToLower x) = (' ' == x) := by
  by_cases hx : x = ' '
  · rw [hx]
    rfl
  · have h1 : pyToLower x ≠ ' ' := fun hc => hx (pyToLower_eq_space.mp hc)
    rw [beq_eq_false_iff_ne.mpr fun hc => h1 hc.symm,
      beq_eq_false_iff_ne.mpr fun hc => hx hc.symm]

theorem isPrefixOf_spc3_map (s : List Char) :
    [' ', ' ', ' '].isPrefixOf (s.map pyToLower) = [' ', ' ', ' '].isPrefixOf s := by
  match s with
  | [] => rfl
  | [a] => simp [List.isPrefixOf]
  | [a, b] => simp [List.isPrefixOf]
  | a :: b :: c :: rest =>
    simp only [List.map_cons, List.isPrefixOf, Bool.and_true]
    rw [space_beq_pyToLower a, space_beq_pyToLower b, space_beq_pyToLower c]

theorem containsSub_spc3_map : ∀ s : List Char,
    containsSub (s.map pyToLower) [' ', ' ', ' '] = containsSub s [' ', ' ', ' '] := by
  intro s
  induction s with
  | nil => rfl
  | cons a rest ih =>
    rw [List.map_cons]
    simp only [containsSub]
    rw [← List.map_cons, isPrefixOf_spc3_map (a :: rest), ih]

theorem containsSub_tail {a : Char} {rest pat : List Char}
    (h : containsSub (a :: rest) pat = false) : containsSub rest pat = false := by
  simp only [containsSub, Bool.or_eq_false_iff] at h
  exact h.2

theorem no_triple_head {d : Char} {r : List Char}
    (h : containsSub (' ' :: ' ' :: d :: r) [' ', ' ', ' '] = false) : d ≠ ' ' := by
  rintro rfl
  simp only [containsSub, List.isPrefixOf, Bool.or_eq_false_iff] at h
  rcases h with ⟨h1, -⟩
  simp at h1

theorem replaceDoubleSpace_eq_collapseRuns :
    ∀ t : List Char, containsSub t [' ', ' ', ' '] = false →
      replaceDoubleSpace t = collapseRuns t := by
  intro t
  induction t using replaceDoubleSpace.induct with
  | case1 => intro h; rfl
  | case2 c =>
    intro h
    simp only [replaceDoubleSpace, collapseRuns, collapseRunsAux]
    by_cases hc : c = ' '
    · rw [if_pos hc, hc]
      simp
    · rw [if_neg hc]
  | case3 c1 c2 rest hcond ih =>
    intro h
    obtain ⟨rfl, rfl⟩ := hcond
    simp only [replaceDoubleSpace, if_pos (And.intro rfl rfl), collapseRuns, collapseRunsAux,
      if_pos rfl]
    cases rest with
    | nil => rfl
    | cons d r2 =>
      have hd : d ≠ ' ' := no_triple_head h
      have hrest : containsSub (d :: r2) [' ', ' ', ' '] = false :=
        containsSub_tail (containsSub_tail h)
      rw [ih hrest]
      simp [collapseRuns, collapseRunsAux, if_neg hd, hd]
  | case4 c1 c2 rest hcond ih =>
    intro h
    have htail : containsSub (c2 :: rest) [' ', ' ', ' '] = false := containsSub_tail h
    simp only [replaceDoubleSpace, if_neg hcond]
    rw [ih htail]
    by_cases hc1 : c1 = ' '
    · have hc2 : c2 ≠ ' ' := fun hc2 => hcond ⟨hc1, hc2⟩
      subst hc1
      simp [collapseRuns, collapseRunsAux, hc2]
    · simp [collapseRuns, collapseRunsAux, hc1]

/-- C5 counterexample: on an input containing a run of three spaces the
code performs a single left-to-right double-space replace pass and leaves
two underscores where the specified collapse of the whole run would leave
one. -/
theorem normalize_triple_space_counterexample :
    normalizeLabel "a   b".data = "a__b".data ∧
    specNormalize "a   b".data = "a_b".data ∧
    "a__b".data ≠ "a_b".data :=
  ⟨rfl, rfl, by decide⟩

/-- C5 amended: for every input string with no run of three or more
consecutive spaces, the key normalizer returns the input lowercased, with
every run of two spaces collapsed to a single space, and with the
remaining spaces replaced by underscores. -/
theorem normalize_matches_spec_without_triple_spaces
    (s : List Char) (h : containsSub s [' ', ' ', ' '] = false) :
    normalizeLabel s = specNormalize s := by
  unfold normalizeLabel specNormalize
  rw [replaceDoubleSpace_eq_collapseRuns (s.map pyToLower)
    (by rw [containsSub_spc3_map]; exact h)]

/-- Witness for the amended C5 on the schema label with a double space. -/
theorem normalize_matches_spec_witness :
    normalizeLabel "FE  ES Count".data = specNormalize "FE  ES Count".data :=
  normalize_matches_spec_without_triple_spaces "FE  ES Count".data (by rfl)

theorem mem_spacesToUnderscores {c : Char} {t : List Char}
    (h : c ∈ spacesToUnderscores t) : c = '_' ∨ (c ∈ t ∧ c ≠ ' ') := by
  unfold spacesToUnderscores at h
  rcases List.mem_map.mp h with ⟨a, ha, hae⟩
  by_cases hsp : a = ' '
  · rw [if_pos hsp] at hae
    exact Or.inl hae.symm
  · rw [if_neg hsp] at hae
    right
    rw [← hae]
    exact ⟨ha, hsp⟩

theorem spacesToUnderscores_id {t : List Char} (h : ∀ c ∈ t, c ≠ ' ') :
    spacesToUnderscores t = t := by
  unfold spacesToUnderscores
  conv_rhs => rw [← List.map_id t]
  apply List.map_congr_left
  intro a ha
  rw [if_neg (h a ha)]
  rfl

theorem mem_replaceDoubleSpace {c : Char} :
    ∀ {t : List Char}, c ∈ replaceDoubleSpace t → c = ' ' ∨ c ∈ t := by
  intro t
  induction t using replaceDoubleSpace.induct with
  | case1 => intro h; cases h
  | case2 d =>
    intro h
    exact Or.inr h
  | case3 c1 c2 rest hcond ih =>
    intro h
    obtain ⟨rfl, rfl⟩ := hcond
    simp only [replaceDoubleSpace, if_pos (And.intro rfl rfl)] at h
    rcases List.mem_cons.mp h with rfl | h
    · exact Or.inl rfl
    · rcases ih h with h2 | h2
      · exact Or.inl h2
      · exact Or.inr (List.mem_cons_of_mem _ (List.mem_cons_of_mem _ h2))
  | case4 c1 c2 rest hcond ih =>
    intro h
    simp only [replaceDoubleSpace, if_neg hcond] at h
    rcases List.mem_cons.mp h with rfl | h
    · exact Or.inr (List.mem_cons_self _ _)
    · rcases ih h with h2 | h2
      · exact Or.inl h2
      · exact Or.inr (List.mem_cons_of_mem _ h2)

theorem replaceDoubleSpace_id :
    ∀ {t : List Char}, (∀ c ∈ t, c ≠ ' ') → replaceDoubleSpace t = t := by
  intro t
  induction t using replaceDoubleSpace.induct with
  | case1 => intro h; rfl
  | case2 d => intro h; rfl
  | case3 c1 c2 rest hcond ih =>
    intro h
    obtain ⟨rfl, rfl⟩ := hcond
    exact absurd rfl (h ' ' (List.mem_cons_self _ _))
  | case4 c1 c2 rest hcond ih =>
    intro h
    simp only [replaceDoubleSpace, if_neg hcond]
    rw [ih fun d hd => h d (List.mem_cons_of_mem _ hd)]

theorem normalizeLabel_chars {c : Char} {s : List Char}
    (h : c ∈ normalizeLabel s) : pyToLower c = c ∧ c ≠ ' ' := by
  unfold normalizeLabel at h
  rcases mem_spacesToUnderscores h with rfl | ⟨hmem, hne⟩
  · exact ⟨rfl, by decide⟩
  · refine ⟨?_, hne⟩
    rcases mem_replaceDoubleSpace hmem with rfl | hmem2
    · exact absurd rfl hne
    · rcases List.mem_map.mp hmem2 with ⟨a, -, rfl⟩
      exact pyToLower_idem a

/-- C8: the key normalizer of the code is idempotent. -/
theorem normalize_idempotent (s : List Char) :
    normalizeLabel (normalizeLabel s) = normalizeLabel s := by
  have hchars : ∀ c ∈ normalizeLabel s, pyToLower c = c ∧ c ≠ ' ' :=
    fun c hc => normalizeLabel_chars hc
  have hmap : (normalizeLabel s).map pyToLower = normalizeLabel s := by
    conv_rhs => rw [← List.map_id (normalizeLabel s)]
    apply List.map_congr_left
    exact fun a ha => (hchars a ha).1
  show spacesToUnderscores (replaceDoubleSpace ((normalizeLabel s).map pyToLower)) =
    normalizeLabel s
  rw [hmap, replaceDoubleSpace_id fun c hc => (hchars c hc).2,
    spacesToUnderscores_id fun c hc => (hchars c hc).2]

end VigorStats
